import Mathlib

/-!
Shallow embedding of the grouped time-series forecasting engine in
`lightwood/mixer/sktime.py` (class `SkTime`), together with proofs about the
claims of its specification.

Modelling conventions:
* Python floats that carry data values are modelled as `PyFloat := Option ℚ`,
  where `none` stands for NaN; timestamps (pandas index labels) are modelled
  as rationals measured in seconds, so that `total_seconds()` of a difference
  is plain subtraction.
* The external sktime forecaster objects are modelled by the `Forecaster`
  structure: `predictAt` is the fitted model's pointwise prediction function
  (the external `predict` capability applied to one integer offset),
  `trainLen` models `len(submodel._y)`, and `dAttr` models the optional `d`
  attribute (`none` = no such attribute, `some none` = attribute present and
  `None`, `some (some k)` = attribute present with value `k`).
* External effects (whether `model.fit` raises, which attributes the fitted
  model has, which modules/classes `sktime.forecasting` exposes) are supplied
  through explicit environments `FitEnv` and `ResolveEnv`.
* Python exceptions of the engine's own code are modelled with
  `Except`/`Option String` error components; dictionary state
  (`self.models`, `self.cutoffs`) is modelled by functions into `Option`.
* The `fbprophet.Prophet` special-case branches (a frequency kwarg and an
  index transform) and the textual content of constructor kwargs are outside
  every claim; kwargs assembly is abstracted into the `usedDefaults` /
  `wrapped` flags of the constructed forecaster record, which is what the
  claims observe (configured construction vs default construction).
-/

attribute [local semireducible] Rat.add Rat.sub Rat.mul Rat.inv Rat.ofScientific

namespace LightwoodSkTime

/-- A Python float datum: `none` models NaN, `some q` a finite value. -/
abbrev PyFloat : Type := Option ℚ

/-- One cell of the `ydf['prediction']` column: initially a zero-filled
placeholder (modelled `none`), later a list of `PyFloat` predictions. -/
abbrev Cell : Type := Option (List PyFloat)

/-- The `ydf` prediction frame: one cell per input row, positionally indexed. -/
abbrev Ydf : Type := List Cell

/-- One row of a lightwood data frame, as the engine reads it: the original
index label (a timestamp in seconds, `__sktime_index` after `reset_index`),
the order-by column value used by `_fit`'s `sort_values`, the group key
(`none` models NaN in the group-by column, which pandas `groupby` drops),
and the target value. -/
structure Row where
  idxLabel : ℚ
  orderVal : ℚ
  group : Option String
  target : PyFloat

/-- A fit-time dataset: its rows plus the number of data-frame columns
(`series_data.size` in pandas is rows times columns). -/
structure FitData where
  rows : List Row
  ncols : ℕ

/-- Attributes of a successfully fitted external forecaster, as provided by
the external model capability. -/
structure FittedAttrs where
  predictAt : Int → ℚ
  dAttr : Option (Option ℕ)

/-- A forecaster record as stored in `self.models`.  `className` is the
resolved constructor name, `wrapped` whether it is pipeline-wrapped in a
`TransformedTargetForecaster`, `usedDefaults` whether it was built by the
default-kwargs retry, `isFitted` the external `is_fitted` flag. -/
structure Forecaster where
  className : String
  wrapped : Bool
  usedDefaults : Bool
  isFitted : Bool
  predictAt : Int → ℚ
  trainLen : ℕ
  dAttr : Option (Option ℕ)

/-- External model-fitting capability: given the resolved class name, whether
the default-constructed configuration is used, the group key and the prepared
training series, either the fitted attributes or `none` when `fit` raises. -/
structure FitEnv where
  fitOutcome : String → Bool → String → List ℚ → Option FittedAttrs

/-- External module environment for `importlib`: the modules available under
`sktime.forecasting`, each with the attribute names it exposes. -/
structure ResolveEnv where
  modules : List (String × List String)

/-- The bookkeeping of a finished-or-running optuna study: the finished
trials, as pairs of the suggested class and the recorded error (`none`
models the infinite sentinel error recorded when a trial raised). -/
structure StudyState where
  trials : List (String × Option ℚ)

/-- The mutable state of one `SkTime` mixer instance (the `self` attributes
the claims are about). -/
structure SkState where
  horizon : ℕ
  gby : Bool
  window : ℕ
  autoSize : Bool
  cutoffFactor : ℕ
  sp : Option ℕ
  periods : String → Option (List ℕ)
  deltas : String → ℚ
  models : String → Option Forecaster
  cutoffs : String → Option ℚ
  modelPath : String
  possibleModels : List String
  nTrials : ℕ
  hyperparamSearch : Bool
  study : Option StudyState
  hyperparamDict : Option String
  prepared : Bool

/-- Python's built-in `round`: round half to even (used on `delta / freq`). -/
def pythonRound (q : ℚ) : Int :=
  let f := q.floor
  let r := q - (f : ℚ)
  if r < 1/2 then f
  else if 1/2 < r then f + 1
  else if f % 2 = 0 then f else f + 1

/-- Python slicing `l[-k:]` for `k` a nonnegative count: the last `k`
elements, or the whole list when `k = 0` (since `l[-0:] = l[0:]`). -/
def pyTakeLast {α : Type} (k : ℕ) (l : List α) : List α :=
  if k = 0 then l else l.drop (l.length - k)

/-- Insert into a sorted list, keeping earlier elements first among ties
(stable insertion step for `sortWith`). -/
def insertOrd {α : Type} (le : α → α → Bool) (x : α) : List α → List α
  | [] => [x]
  | y :: ys => if le x y then x :: y :: ys else y :: insertOrd le x ys

/-- Stable insertion sort, modelling pandas' ascending sorts. -/
def sortWith {α : Type} (le : α → α → Bool) (l : List α) : List α :=
  l.foldr (insertOrd le) []

/-- Helper for `pySplit`: split a character list at every separator,
accumulating the current fragment in reverse. -/
def splitOnCharAux (c : Char) : List Char → List Char → List String
  | [], acc => [String.mk acc.reverse]
  | x :: xs, acc =>
    if x = c then String.mk acc.reverse :: splitOnCharAux c xs []
    else splitOnCharAux c xs (x :: acc)

/-- Python's `str.split(sep)` for a one-character separator (for example
`"a.b".split(".") = ["a", "b"]`, `"a".split(".") = ["a"]`). -/
def pySplit (c : Char) (s : String) : List String :=
  splitOnCharAux c s.data []

/-- Dictionary update `m[g] = v` for a dict modelled as a function. -/
def updF {α : Type} (m : String → Option α) (g : String) (v : α) :
    String → Option α :=
  fun x => if x = g then some v else m x

/-- Apply a batch of positional writes `ydf.loc[idx] = pred` to the
prediction frame. -/
def writeAll (ydf : Ydf) (ps : List (ℕ × List PyFloat)) : Ydf :=
  ps.foldl (fun y p => y.set p.1 (some p.2)) ydf

/-- The naive fallback forecaster `_call_default`: per row a horizon-length
array repeating the previous row's target (`[0] + list(data)[:-1]`,
so the first row gets zeros). -/
def callDefault (H : ℕ) (ydf : Ydf) (data : List PyFloat) (idxs : List ℕ) :
    Ydf :=
  let series : List PyFloat := (some 0 : Option ℚ) :: data.dropLast
  writeAll ydf (idxs.zip (series.map (fun v => List.replicate H v)))

/-- The `isinstance(submodel, StatsForecastAutoARIMA)` test of the
sktime#3600 workaround, keyed on the resolved class name. -/
def isAutoArima (f : Forecaster) : Bool :=
  f.className = "StatsForecastAutoARIMA"

/-- The minimum answerable offset of a fitted model:
`-len(submodel._y) + 1`, plus the differencing order when the submodel has a
`d` attribute (`0` when that attribute is `None`). -/
def minOffsetOf (f : Forecaster) : Int :=
  (-(f.trainLen : Int) + 1) +
    (match f.dAttr with
     | none => 0
     | some od => ((od.getD 0 : ℕ) : Int))

/-- The batched prediction call of `_call_groupmodel` over the window
`[start, start + n + H)` for a group of `n` rows: one `model.predict` call
per group, evaluated pointwise through the external capability; under the
AutoARIMA workaround (sktime#3600) the model instead predicts from
`min_offset` and keeps the last `end - start` values. -/
def gmPreds (H : ℕ) (f : Forecaster) (n : ℕ) (start : Int) : List PyFloat :=
  let stop : Int := start + (n : Int) + (H : Int)
  if isAutoArima f then
    pyTakeLast (stop - start).toNat
      ((List.range (stop - minOffsetOf f).toNat).map
        (fun (k : ℕ) => some (f.predictAt (minOffsetOf f + (k : Int)))))
  else
    (List.range (stop - start).toNat).map
      (fun (k : ℕ) => some (f.predictAt (start + (k : Int))))

/-- Body of `_call_groupmodel` once the effective window start is known:
batch-predict, then slice one horizon window per row (`all_preds[max(0,
true_idx) : max(0, true_idx) + horizon]` written at that row's label). -/
def callGroupmodelAux (H : ℕ) (ydf : Ydf) (f : Forecaster)
    (series : List (ℕ × PyFloat)) (start : Int) : Ydf :=
  let allPreds : List PyFloat := gmPreds H f series.length start
  writeAll ydf
    (series.enum.map (fun q => (q.2.1, (allPreds.drop (max 0 q.1)).take H)))

/-- The method `_call_groupmodel`: the effective start of the query window is
`max(offset, min_offset)` — the offset is clamped, and the rest of the body
depends on the clamped value only. -/
def callGroupmodel (H : ℕ) (ydf : Ydf) (f : Forecaster)
    (series : List (ℕ × PyFloat)) (offset : Int) : Ydf :=
  callGroupmodelAux H ydf f series (max offset (minOffsetOf f))

/-- The relative-offset computation of `__call__`:
`round((start_ts - cutoff).total_seconds() / freq)`. -/
def computeOffset (cutoff freq startTs : ℚ) : Int :=
  pythonRound ((startTs - cutoff) / freq)

/-- The dispatch condition of `__call__`, line for line:
`self.models.get(group, False) and self.models[group].is_fitted`. -/
def fittedFor (s : SkState) (g : String) : Bool :=
  match s.models g with
  | some f => f.isFitted
  | none => false

/-- Processing of one `groupby` block inside `__call__`: nonempty blocks are
routed to the per-group forecaster when a fitted model exists, otherwise to
the naive fallback. -/
def callBlock (s : SkState) (ydf : Ydf) (g : String)
    (items : List (ℕ × Row)) : Ydf :=
  match items with
  | [] => ydf
  | first :: _ =>
    match s.models g with
    | some f =>
      if f.isFitted then
        callGroupmodel s.horizon ydf f
          (items.map (fun p => (p.1, p.2.target)))
          (computeOffset ((s.cutoffs g).getD 0) (s.deltas g)
            first.2.idxLabel)
      else
        callDefault s.horizon ydf (items.map (fun p => p.2.target))
          (items.map (fun p => p.1))
    | none =>
      callDefault s.horizon ydf (items.map (fun p => p.2.target))
        (items.map (fun p => p.1))

/-- Lexicographic comparison of character lists by code point, used for the
sorted group-key order of pandas `groupby`. -/
def charListLe : List Char → List Char → Bool
  | [], _ => true
  | _ :: _, [] => false
  | a :: as, b :: bs =>
    if a.toNat < b.toNat then true
    else if b.toNat < a.toNat then false
    else charListLe as bs

/-- Lexicographic string comparison by code point. -/
def strLe (a b : String) : Bool := charListLe a.data b.data

/-- Group keys of an inference frame in pandas `groupby` order (sorted,
distinct, rows with a NaN key dropped). -/
def groupKeysOf (rows : List Row) : List String :=
  sortWith strLe ((rows.filterMap (fun r => r.group)).dedup)

/-- The `groupby` blocks seen by `__call__`: per sorted key the (position,
row) pairs of that key, or a single `__default` block when no grouping is
configured. -/
def inferBlocks (gby : Bool) (rows : List Row) : List (String × List (ℕ × Row)) :=
  if gby then
    (groupKeysOf rows).map
      (fun g => (g, rows.enum.filter (fun p => p.2.group = some g)))
  else
    [("__default", rows.enum)]

/-- The rows left in `pending_idxs` after the group loop: exactly the rows
whose group key is NaN (dropped by pandas `groupby`), in increasing position
order (the list order only matters observably when exactly one row is
pending, since two or more pending rows crash before their order is used). -/
def pendingItems (gby : Bool) (rows : List Row) : List (ℕ × Row) :=
  if gby then rows.enum.filter (fun p => p.2.group = none) else []

/-- The exception of the pending-rows fallback: pandas `Series` has no
`flatten` attribute. -/
def flattenError : String :=
  "AttributeError: Series object has no attribute flatten"

/-- The method `__call__`: zero-filled prediction frame, per-group dispatch,
then the naive fallback over the remaining pending rows (rows whose group
key was NaN).  `df[target][list(pending_idxs)].squeeze()` yields a numpy
scalar when exactly one row is pending — a scalar does support the
`flatten()` call inside `_call_default`, producing that row's zero forecast
— but a pandas `Series` when two or more rows are pending, and `Series` has
no `flatten` attribute: the `AttributeError` propagates out of `__call__`
and no prediction frame is returned. -/
def callMixer (s : SkState) (rows : List Row) : Except String Ydf :=
  let ydf0 : Ydf := List.replicate rows.length none
  let ydf1 := (inferBlocks s.gby rows).foldl
    (fun y b => callBlock s y b.1 b.2) ydf0
  let pend := pendingItems s.gby rows
  if 0 < pend.length then
    if pend.length = 1 then
      .ok (callDefault s.horizon ydf1 (pend.map (fun p => p.2.target))
        (pend.map (fun p => p.1)))
    else .error flattenError
  else .ok ydf1

/-- Strict comparison of recorded trial errors, with the sentinel `none`
(infinite error) greater than every finite error. -/
def errLt (a b : Option ℚ) : Bool :=
  match a, b with
  | some x, some y => decide (x < y)
  | some _, none => true
  | none, _ => false

/-- The minimising trial of a study, ties broken by first-seen order
(optuna's `best_params` over completed trials). -/
def bestPair : List (String × Option ℚ) → Option (String × Option ℚ)
  | [] => none
  | t :: rest =>
    some (rest.foldl (fun acc u => if errLt u.2 acc.2 then u else acc) t)

/-- The winning class of a study. -/
def bestOf (ts : List (String × Option ℚ)) : Option String :=
  (bestPair ts).map Prod.fst

/-- Lines 137-145 of `_fit`: choose the module name from `model_path`,
the finished study's best params, or the active optuna suggestion; a `None`
study inside the else-branch raises (`self.study.trials` on `None`), and a
missing `class` key in `hyperparam_dict` raises `KeyError`. -/
def selectModuleName (s : SkState) : Except String String :=
  if !s.hyperparamSearch && s.study.isNone then .ok s.modelPath
  else
    match s.study with
    | some st =>
      if st.trials.length = s.nTrials then
        match bestOf st.trials with
        | some b => .ok b
        | none => .error "ValueError: no completed trials"
      else
        match s.hyperparamDict with
        | some c => .ok c
        | none => .error "KeyError: class"
    | none => .error "AttributeError: NoneType has no attribute trials"

/-- Lines 147-151 of `_fit`: import `sktime.forecasting.<module part>`
(a missing module raises, uncaught), then `getattr` the class part (a missing
name after `split('.')` raises `IndexError`); only an `AttributeError` on the
class lookup is caught and replaced by the `StatsForecastAutoARIMA` default. -/
def resolveModelClass (env : ResolveEnv) (name : String) :
    Except String String :=
  let parts := pySplit '.' name
  match env.modules.lookup (parts.headD "") with
  | none => .error "ModuleNotFoundError"
  | some attrs =>
    match parts[1]? with
    | none => .error "IndexError"
    | some cname =>
      if attrs.contains cname then .ok cname
      else .ok "StatsForecastAutoARIMA"

/-- Effective seasonality period for a group: the explicit override when
truthy (Python `if self.sp`), otherwise `ts_analysis['periods'].get(group,
[1])[0]`. -/
def effectiveSp (s : SkState) (g : String) : ℕ :=
  match s.sp with
  | some k => if k ≠ 0 then k else ((s.periods g).getD [1]).headD 1
  | none => ((s.periods g).getD [1]).headD 1

/-- Series preparation inside `_fit`'s fit branch: sort ascending by index
label (`sort_index`), drop the labels (`reset_index`), drop NaN targets,
then under `auto_size` keep the last
`min(len(series), max(500, sp * cutoff_factor))` observations. -/
def prepSeries (s : SkState) (sp : ℕ) (grows : List Row) : List ℚ :=
  let sorted := sortWith (fun a b => decide (a.idxLabel ≤ b.idxLabel)) grows
  let vals := sorted.filterMap (fun r => r.target)
  if s.autoSize then
    pyTakeLast (min vals.length (max 500 (sp * s.cutoffFactor))) vals
  else vals

/-- Index label of the last row of a frame slice (`series_oby.index[-1]`);
callers guarantee nonemptiness (pandas groupby blocks are nonempty). -/
def lastIdxLabel (l : List Row) : ℚ :=
  match l.getLast? with
  | some r => r.idxLabel
  | none => 0

/-- A freshly constructed, not yet fitted forecaster record. -/
def mkUnfit (cls : String) (wrapped usedDefaults : Bool) : Forecaster :=
  { className := cls, wrapped := wrapped, usedDefaults := usedDefaults,
    isFitted := false, predictAt := fun _ => 0, trainLen := 0, dAttr := none }

/-- A fitted forecaster record carrying the externally provided attributes. -/
def mkFitted (cls : String) (wrapped usedDefaults : Bool) (fa : FittedAttrs)
    (len : ℕ) : Forecaster :=
  { className := cls, wrapped := wrapped, usedDefaults := usedDefaults,
    isFitted := true, predictAt := fa.predictAt, trainLen := len,
    dAttr := fa.dAttr }

/-- The body of `_fit`'s per-group loop iteration: register the (pipeline
wrapped, unfitted) forecaster and the cutoff unconditionally; fit only when
`series_data.size > window`; on a fit exception replace the entry by a
default-constructed model and retry exactly once, the second exception
propagating. -/
def fitGroupStep (fe : FitEnv) (s : SkState) (cls : String)
    (sortedDf : List Row) (ncols : ℕ) (g : String) (grows : List Row) :
    SkState × Option String :=
  let sp := effectiveSp s g
  let cut := lastIdxLabel (if s.gby then grows else sortedDf)
  let s1 := { s with models := updF s.models g (mkUnfit cls true false),
                     cutoffs := updF s.cutoffs g cut }
  if grows.length * ncols > s.window then
    let series := prepSeries s sp grows
    match fe.fitOutcome cls false g series with
    | some fa =>
      ({ s1 with models := updF s1.models g (mkFitted cls true false fa series.length) },
       none)
    | none =>
      match fe.fitOutcome cls true g series with
      | some fa =>
        ({ s1 with models := updF s1.models g (mkFitted cls false true fa series.length) },
         none)
      | none =>
        ({ s1 with models := updF s1.models g (mkUnfit cls false true) },
         some "fit raised twice")
  else (s1, none)

/-- The per-group loop of `_fit`, aborting at the first propagated
exception (later groups are then never processed). -/
def fitLoop (fe : FitEnv) (cls : String) (sortedDf : List Row) (ncols : ℕ) :
    SkState → List (String × List Row) → SkState × Option String
  | s, [] => (s, none)
  | s, (g, grows) :: rest =>
    match fitGroupStep fe s cls sortedDf ncols g grows with
    | (s1, some e) => (s1, some e)
    | (s1, none) => fitLoop fe cls sortedDf ncols s1 rest

/-- The `groupby` blocks of `_fit` over the sorted frame: per sorted key its
rows, or one `__default` block covering everything when ungrouped. -/
def fitBlocks (gby : Bool) (sortedRows : List Row) :
    List (String × List Row) :=
  if gby then
    (groupKeysOf sortedRows).map
      (fun g => (g, sortedRows.filter (fun r => r.group = some g)))
  else
    [("__default", sortedRows)]

/-- The method `_fit`: sort by the original order-by column, select and
resolve the model class, then run the per-group fitting loop.  The returned
state carries all dictionary mutations performed before any propagated
exception. -/
def fitUnderscore (re : ResolveEnv) (fe : FitEnv) (s : SkState)
    (d : FitData) : SkState × Option String :=
  let sortedDf := sortWith (fun a b => decide (a.orderVal ≤ b.orderVal)) d.rows
  match selectModuleName s with
  | .error e => (s, some e)
  | .ok moduleName =>
    match resolveModelClass re moduleName with
    | .error e => (s, some e)
    | .ok cls => fitLoop fe cls sortedDf d.ncols s (fitBlocks s.gby sortedDf)

/-- One term of the symmetric mean absolute percentage error; the NaN cases
and sktime's tiny-epsilon denominator guard are collapsed to `0`, which no
claim observes. -/
def smapeTerm (a b : PyFloat) : ℚ :=
  match a, b with
  | some x, some y =>
    if |x| + |y| = 0 then 0 else 2 * |x - y| / (|x| + |y|)
  | _, _ => 0

/-- `MeanAbsolutePercentageError(symmetric=True)` over paired values. -/
def smape (ys ps : List PyFloat) : ℚ :=
  let terms := (ys.zip ps).map (fun p => smapeTerm p.1 p.2)
  if terms.length = 0 then 0 else terms.sum / (terms.length : ℚ)

/-- `ConcatedEncodedDs([a, b])`: row concatenation of the two splits. -/
def concatData (a b : FitData) : FitData :=
  { rows := a.rows ++ b.rows, ncols := a.ncols }

/-- The optuna objective `_get_best_model` for one trial: record the
suggestion, run `_fit` on the train split, score the first returned row
against the first `horizon` true test targets; any exception along the way
(a propagated fit error, or `iloc[0]` on an empty output) yields the
infinite-error sentinel, while the state mutations made so far persist. -/
def trialObjective (re : ResolveEnv) (fe : FitEnv) (s : SkState)
    (c : String) (train test : FitData) : SkState × Option ℚ :=
  match fitUnderscore re fe { s with hyperparamDict := some c } train with
  | (s1, some _) => (s1, none)
  | (s1, none) =>
    let yTrue := (test.rows.map (fun r => r.target)).take s1.horizon
    match callMixer s1 test.rows with
    | .error _ => (s1, none)
    | .ok [] => (s1, none)
    | .ok (firstCell :: _) =>
      (s1, some (smape yTrue ((firstCell.getD []).take yTrue.length)))

/-- `study.optimize` with a grid sampler over the candidate classes: one
trial per candidate, threading the instance state (each trial's `_fit`
mutations persist) and accumulating the finished-trials list the running
study exposes. -/
def runTrials (re : ResolveEnv) (fe : FitEnv) (train test : FitData) :
    SkState → List (String × Option ℚ) → List String →
    SkState × List (String × Option ℚ)
  | s, acc, [] => (s, acc)
  | s, acc, c :: cs =>
    let sTrial := { s with study := some ⟨acc⟩ }
    match trialObjective re fe sTrial c train test with
    | (s1, res) => runTrials re fe train test s1 (acc ++ [(c, res)]) cs

/-- The method `fit`: when hyperparameter search is enabled, run the study
over all candidates and then one full `_fit` over the concatenated train and
dev splits (with the finished study selecting the winner inside `_fit`);
otherwise a single full `_fit` over the concatenation. -/
def skFit (re : ResolveEnv) (fe : FitEnv) (s : SkState) (train dev : FitData) :
    SkState × Option String :=
  if s.hyperparamSearch then
    let r := runTrials re fe train dev { s with study := some ⟨[]⟩ } [] s.possibleModels
    fitUnderscore re fe { r.1 with study := some ⟨r.2⟩ } (concatData train dev)
  else
    fitUnderscore re fe s (concatData train dev)

/-- The study phase of `fit` when hyperparameter search is enabled: a fresh
study (no finished trials) optimized over the whole candidate list. -/
def searchTrials (re : ResolveEnv) (fe : FitEnv) (s : SkState)
    (train dev : FitData) : SkState × List (String × Option ℚ) :=
  runTrials re fe train dev { s with study := some ⟨[]⟩ } [] s.possibleModels

/-- The method `partial_fit`: disable the hyperparameter search, then call
`fit` with the dev split as the training argument and the train split as the
dev argument; `prepared` is set only when `fit` returned normally. -/
def partialFit (re : ResolveEnv) (fe : FitEnv) (s : SkState)
    (train dev : FitData) : SkState × Option String :=
  match skFit re fe { s with hyperparamSearch := false } dev train with
  | (s1, some e) => (s1, some e)
  | (s1, none) => ({ s1 with prepared := true }, none)

/-- The public operations of one mixer instance, for stating lifecycle
invariants. -/
inductive SkOp where
  | doFit (train dev : FitData)
  | doPartialFit (train dev : FitData)
  | doCall (rows : List Row)

/-- State transition of one public operation; `__call__` performs no
mutation of the instance state (it deep-copies its input frame). -/
def stepOp (re : ResolveEnv) (fe : FitEnv) (s : SkState) : SkOp → SkState
  | .doFit a b => (skFit re fe s a b).1
  | .doPartialFit a b => (partialFit re fe s a b).1
  | .doCall _ => s

/-- Run a sequence of public operations. -/
def runOps (re : ResolveEnv) (fe : FitEnv) (s : SkState) (ops : List SkOp) :
    SkState :=
  ops.foldl (stepOp re fe) s

/-- The shape invariant of one prediction cell: position `i` of the frame
holds a prediction list of exactly the declared horizon length. -/
def GoodAt (H : ℕ) (y : Ydf) (i : ℕ) : Prop :=
  ∃ l, y[i]? = some (some l) ∧ l.length = H

/-! Concrete instances used by counterexamples and witnesses. -/

/-- A fitted forecaster with five retained training points and no `d`
attribute, whose external predictions return the queried offset itself. -/
def exForecaster5 : Forecaster :=
  { className := "STLForecaster", wrapped := true, usedDefaults := false,
    isFitted := true, predictAt := fun k => (k : ℚ), trainLen := 5,
    dAttr := none }

/-- A fitted forecaster with one retained training point, predictions equal
to the queried offset. -/
def exForecaster1 : Forecaster :=
  { className := "STLForecaster", wrapped := true, usedDefaults := false,
    isFitted := true, predictAt := fun k => (k : ℚ), trainLen := 1,
    dAttr := none }

/-- A module environment exposing only `sktime.forecasting.trend` with the
`STLForecaster` class. -/
def exResolveEnv : ResolveEnv := ⟨[("trend", ["STLForecaster"])]⟩

/-- An external fit capability for which every `fit` call raises. -/
def exFitEnvFail : FitEnv := ⟨fun _ _ _ _ => none⟩

/-- An external fit capability for which every `fit` call succeeds, fitting
a model that predicts the queried offset and has no `d` attribute. -/
def exFitEnvOk : FitEnv := ⟨fun _ _ _ _ => some ⟨fun k => (k : ℚ), none⟩⟩

/-- A base engine state: horizon 2, grouped task, lookback window 5, empty
registry, search disabled. -/
def exState0 : SkState :=
  { horizon := 2, gby := true, window := 5, autoSize := true,
    cutoffFactor := 4, sp := none, periods := fun _ => none,
    deltas := fun _ => 86400, models := fun _ => none,
    cutoffs := fun _ => none, modelPath := "trend.STLForecaster",
    possibleModels := ["trend.STLForecaster"], nTrials := 1,
    hyperparamSearch := false, study := none, hyperparamDict := none,
    prepared := false }

/-- The state for the offset-arithmetic scenario: group `a` has a fitted
model with cutoff at day 10 and a one-day sampling interval. -/
def exState8 : SkState :=
  { exState0 with
    models := fun g => if g = "a" then some exForecaster1 else none,
    cutoffs := fun g => if g = "a" then some (864000 : ℚ) else none }

/-- A single inference row of group `a` whose origin timestamp is day 13. -/
def exRows8 : List Row :=
  [{ idxLabel := 1123200, orderVal := 0, group := some "a", target := some 0 }]

/-- A training row in group `a`. -/
def exRowA : Row :=
  { idxLabel := 1, orderVal := 1, group := some "a", target := some 5 }

/-- A training row in group `b`. -/
def exRowB : Row :=
  { idxLabel := 2, orderVal := 2, group := some "b", target := some 6 }

/-- A one-row, one-column dataset containing only group `a`. -/
def exData1 : FitData := ⟨[exRowA], 1⟩

/-- A one-row, one-column dataset containing only group `b`. -/
def exData2 : FitData := ⟨[exRowB], 1⟩

/-- A two-row dataset with one row in each of groups `a` and `b`. -/
def exData3 : FitData := ⟨[exRowA, exRowB], 1⟩

/-- The base state with a zero lookback window, so every group is fit. -/
def exState3 : SkState := { exState0 with window := 0 }

/-- The base state pointing at a model path whose module does not exist. -/
def exState9 : SkState := { exState0 with modelPath := "nosuchmodule.Foo" }

/-- The base state with hyperparameter search enabled over one candidate. -/
def exStateSearch : SkState := { exState0 with hyperparamSearch := true }

/-- A mixed inference frame: a row of the fitted group `a`, a row with a NaN
group key, and a row of the never-trained group `z`. -/
def exRowsMix : List Row :=
  [{ idxLabel := 0, orderVal := 0, group := some "a", target := some 1 },
   { idxLabel := 1, orderVal := 1, group := none, target := some 9 },
   { idxLabel := 2, orderVal := 2, group := some "z", target := some 2 }]

/-- A mixed inference frame with a row of the fitted group `a` and two rows
whose group key is NaN (two pending rows). -/
def exRowsNaN2 : List Row :=
  [{ idxLabel := 1123200, orderVal := 0, group := some "a", target := some 0 },
   { idxLabel := 1, orderVal := 1, group := none, target := some 9 },
   { idxLabel := 2, orderVal := 2, group := none, target := some 8 }]

/-! Helper lemmas about the write primitive of the prediction frame. -/

theorem writeAll_nil (ydf : Ydf) : writeAll ydf [] = ydf := rfl

theorem writeAll_cons (ydf : Ydf) (p : ℕ × List PyFloat)
    (ps : List (ℕ × List PyFloat)) :
    writeAll ydf (p :: ps) = writeAll (ydf.set p.1 (some p.2)) ps := rfl

theorem writeAll_length (ydf : Ydf) (ps : List (ℕ × List PyFloat)) :
    (writeAll ydf ps).length = ydf.length := by
  induction ps generalizing ydf with
  | nil => rfl
  | cons p ps ih => rw [writeAll_cons, ih, List.length_set]

theorem writeAll_not_mem (ydf : Ydf) (ps : List (ℕ × List PyFloat)) (i : ℕ)
    (h : i ∉ ps.map Prod.fst) :
    (writeAll ydf ps)[i]? = ydf[i]? := by
  induction ps generalizing ydf with
  | nil => rfl
  | cons p ps ih =>
    rw [List.map_cons, List.mem_cons, not_or] at h
    rw [writeAll_cons, ih _ h.2, List.getElem?_set_ne (fun hh => h.1 hh.symm)]

/-! Claim theorems. -/

/-- C2 (counterexample): a per-group forecaster with five retained training
points (minimum answerable offset `-4`), queried at offset `-10`, does not
raise any data-availability error: `_call_groupmodel` silently clamps the
window start to `-4` and returns the same completed forecast as a query at
offset `-4`. -/
theorem claim_C2_counterexample :
    minOffsetOf exForecaster5 = -4 ∧
    callGroupmodel 2 [none] exForecaster5 [(0, some 1)] (-10) =
      callGroupmodel 2 [none] exForecaster5 [(0, some 1)] (-4) ∧
    callGroupmodel 2 [none] exForecaster5 [(0, some 1)] (-10) =
      [some [some (-4 : ℚ), some (-3)]] :=
  ⟨by decide, by decide, by decide⟩

/-- C2 (amended): for every inference query whose computed offset lies below
the forecaster's minimum answerable offset, `_call_groupmodel` silently
clamps the offset to that bound (`start = max(offset, min_offset)`) and
returns that clamped window's forecasts; no error is raised. -/
theorem claim_C2_amended (H : ℕ) (ydf : Ydf) (f : Forecaster)
    (series : List (ℕ × PyFloat)) (offset : Int) :
    callGroupmodel H ydf f series offset =
      callGroupmodel H ydf f series (max offset (minOffsetOf f)) := by
  unfold callGroupmodel
  rw [max_assoc, max_self]

/-- C8: the relative offset is `round((origin_timestamp - cutoff) / sampling
interval)`; with cutoff at day 10 (in seconds), a one-day sampling interval
and an inference row at day 13, the computed offset is 3, and the full
`__call__` pipeline forecasts that row from the fitted model's offset-3
window. -/
theorem claim_C8_offset :
    computeOffset (10 * 86400) 86400 (13 * 86400) = 3 ∧
    (∀ cutoff freq startTs : ℚ,
      computeOffset cutoff freq startTs =
        pythonRound ((startTs - cutoff) / freq)) ∧
    callMixer exState8 exRows8 = .ok [some [some (3 : ℚ), some 4]] :=
  ⟨by decide, fun _ _ _ => rfl, rfl⟩

/-- C9 (counterexample): the identifier `nosuchmodule.Foo` fails to resolve
(its module part does not exist under `sktime.forecasting`), yet the fit
pass does not fall back to the auto-ARIMA default: the uncaught
`ModuleNotFoundError` aborts the whole fit, and no group is registered. -/
theorem claim_C9_counterexample :
    (fitUnderscore exResolveEnv exFitEnvFail exState9 exData1).2 =
      some "ModuleNotFoundError" ∧
    ((fitUnderscore exResolveEnv exFitEnvFail exState9 exData1).1.models
      "a").isSome = false :=
  ⟨by decide, by decide⟩

/-- C9 (amended): only a resolution failure of the class part (module found,
class name absent, an `AttributeError` from `getattr`) falls back to the
default `StatsForecastAutoARIMA` family; an identifier whose module part is
unknown raises `ModuleNotFoundError` instead, failing the fit pass. -/
theorem claim_C9_amended :
    (∀ (env : ResolveEnv) (name cname : String) (attrs : List String),
      env.modules.lookup ((pySplit '.' name).headD "") = some attrs →
      (pySplit '.' name)[1]? = some cname →
      attrs.contains cname = false →
      resolveModelClass env name = .ok "StatsForecastAutoARIMA") ∧
    (∀ (env : ResolveEnv) (name : String),
      env.modules.lookup ((pySplit '.' name).headD "") = none →
      resolveModelClass env name = .error "ModuleNotFoundError") := by
  constructor
  · intro env name cname attrs hm hc hnot
    simp only [resolveModelClass]
    rw [hm, hc]
    dsimp only
    rw [hnot]
    rfl
  · intro env name hm
    simp only [resolveModelClass]
    rw [hm]

/-- C9 (witness): the amended statement at concrete inputs: the known module
`trend` with the unknown class `Bogus` resolves to the auto-ARIMA default,
and the unknown module `nosuchmodule` raises. -/
theorem claim_C9_witness :
    resolveModelClass exResolveEnv "trend.Bogus" =
      .ok "StatsForecastAutoARIMA" ∧
    resolveModelClass exResolveEnv "nosuchmodule.Foo" =
      .error "ModuleNotFoundError" :=
  ⟨claim_C9_amended.1 exResolveEnv "trend.Bogus" "Bogus" ["STLForecaster"]
      (by decide) (by decide) (by decide),
   claim_C9_amended.2 exResolveEnv "nosuchmodule.Foo" (by decide)⟩

/-- C4 (counterexample): a group whose series (one row, one column) is
smaller than the lookback window (5) is not fit, but a Model Record *is*
created for it: `_fit` registers both an (unfitted) forecaster entry and a
cutoff before checking the size, contradicting "no forecaster entry and no
cutoff in the registry". -/
theorem claim_C4_counterexample :
    ((fitUnderscore exResolveEnv exFitEnvFail exState0 exData1).1.models
      "a").isSome = true ∧
    ((fitUnderscore exResolveEnv exFitEnvFail exState0 exData1).1.cutoffs
      "a").isSome = true ∧
    fittedFor (fitUnderscore exResolveEnv exFitEnvFail exState0 exData1).1
      "a" = false ∧
    (fitUnderscore exResolveEnv exFitEnvFail exState0 exData1).2.isSome =
      false :=
  ⟨by decide, by decide, by decide, by decide⟩

/-- C4 (amended): a group whose data-frame size (rows times columns) does
not exceed the lookback window is not fit during the pass (no fit call, no
error), but it still receives a registry entry — an unfitted pipeline
forecaster and a cutoff; at inference the dispatch condition
`models.get(group) and is_fitted` is false, so the group is routed to the
naive fallback exactly as an unseen group would be. -/
theorem claim_C4_amended (fe : FitEnv) (s : SkState) (cls : String)
    (sortedDf : List Row) (ncols : ℕ) (g : String) (grows : List Row)
    (hsmall : grows.length * ncols ≤ s.window) :
    (fitGroupStep fe s cls sortedDf ncols g grows).2 = none ∧
    (fitGroupStep fe s cls sortedDf ncols g grows).1.models g =
      some (mkUnfit cls true false) ∧
    (fitGroupStep fe s cls sortedDf ncols g grows).1.cutoffs g =
      some (lastIdxLabel (if s.gby then grows else sortedDf)) ∧
    fittedFor (fitGroupStep fe s cls sortedDf ncols g grows).1 g = false ∧
    (∀ (ydf : Ydf) (it : ℕ × Row) (its : List (ℕ × Row)),
      callBlock (fitGroupStep fe s cls sortedDf ncols g grows).1 ydf g
          (it :: its) =
        callDefault s.horizon ydf ((it :: its).map (fun p => p.2.target))
          ((it :: its).map (fun p => p.1))) := by
  have hno : ¬ grows.length * ncols > s.window := by omega
  refine ⟨?_, ?_, ?_, ?_, ?_⟩
  · simp [fitGroupStep, hno]
  · simp [fitGroupStep, hno, updF]
  · simp [fitGroupStep, hno, updF]
  · simp [fitGroupStep, hno, updF, fittedFor, mkUnfit]
  · intro ydf it its
    simp [fitGroupStep, hno, updF, callBlock, mkUnfit]

/-- C4 (witness): the amended statement at a concrete input: a one-row
group `a` against window 5 is skipped but registered unfitted, and a
nonempty inference block for `a` is dispatched to the naive fallback. -/
theorem claim_C4_witness :
    (fitGroupStep exFitEnvFail exState0 "STLForecaster" [exRowA] 1 "a"
      [exRowA]).2 = none ∧
    (fitGroupStep exFitEnvFail exState0 "STLForecaster" [exRowA] 1 "a"
      [exRowA]).1.models "a" = some (mkUnfit "STLForecaster" true false) ∧
    callBlock (fitGroupStep exFitEnvFail exState0 "STLForecaster" [exRowA] 1
        "a" [exRowA]).1 [none] "a" [(0, exRowA)] =
      callDefault 2 [none] [exRowA.target] [0] :=
  ⟨(claim_C4_amended exFitEnvFail exState0 "STLForecaster" [exRowA] 1 "a"
      [exRowA] (by decide)).1,
   (claim_C4_amended exFitEnvFail exState0 "STLForecaster" [exRowA] 1 "a"
      [exRowA] (by decide)).2.1,
   (claim_C4_amended exFitEnvFail exState0 "STLForecaster" [exRowA] 1 "a"
      [exRowA] (by decide)).2.2.2.2 [none] (0, exRowA) []⟩

theorem fitGroupStep_frame (fe : FitEnv) (s : SkState) (cls : String)
    (df : List Row) (nc : ℕ) (g1 : String) (grows : List Row) (g : String)
    (hne : g ≠ g1) :
    (fitGroupStep fe s cls df nc g1 grows).1.models g = s.models g ∧
    (fitGroupStep fe s cls df nc g1 grows).1.cutoffs g = s.cutoffs g := by
  simp only [fitGroupStep]
  split
  · split <;> · split <;> simp [updF, hne]
  · simp [updF, hne]

theorem fitLoop_frame (fe : FitEnv) (cls : String) (df : List Row) (nc : ℕ)
    (blocks : List (String × List Row)) (s : SkState) (g : String)
    (hg : g ∉ blocks.map Prod.fst) :
    (fitLoop fe cls df nc s blocks).1.models g = s.models g ∧
    (fitLoop fe cls df nc s blocks).1.cutoffs g = s.cutoffs g := by
  induction blocks generalizing s with
  | nil => exact ⟨rfl, rfl⟩
  | cons b rest ih =>
    rw [List.map_cons, List.mem_cons, not_or] at hg
    have hstep := fitGroupStep_frame fe s cls df nc b.1 b.2 g hg.1
    show ((fitLoop fe cls df nc s (b :: rest)).1.models g = s.models g) ∧ _
    cases hfs : fitGroupStep fe s cls df nc b.1 b.2 with
    | mk s1 err =>
      rw [hfs] at hstep
      cases err with
      | some e =>
        simpa [fitLoop, hfs] using hstep
      | none =>
        have := ih s1 hg.2
        simp only [fitLoop, hfs]
        exact ⟨this.1.trans hstep.1, this.2.trans hstep.2⟩

/-- C5 (counterexample): fitting first a dataset containing only group `a`,
then a dataset containing only group `b`, leaves the entry for `a` in the
registry: the second full fit does not wholly replace the registry contents,
contradicting "no entry surviving from any earlier fit". -/
theorem claim_C5_counterexample :
    (exData2.rows.all (fun r => r.group ≠ some "a")) = true ∧
    ((fitUnderscore exResolveEnv exFitEnvFail
        (fitUnderscore exResolveEnv exFitEnvFail exState0 exData1).1
        exData2).1.models "a").isSome = true ∧
    ((fitUnderscore exResolveEnv exFitEnvFail
        (fitUnderscore exResolveEnv exFitEnvFail exState0 exData1).1
        exData2).1.cutoffs "a").isSome = true :=
  ⟨by decide, by decide, by decide⟩

/-- C5 (amended): a full fit pass upserts into the same persistent
registry dictionaries rather than replacing them: entries (forecaster and
cutoff) of every group absent from the new fit's data survive unchanged
from whatever earlier fits put there. -/
theorem claim_C5_amended (re : ResolveEnv) (fe : FitEnv) (s : SkState)
    (d : FitData) (g : String)
    (hg : g ∉ (fitBlocks s.gby
      (sortWith (fun a b => decide (a.orderVal ≤ b.orderVal)) d.rows)).map
        Prod.fst) :
    (fitUnderscore re fe s d).1.models g = s.models g ∧
    (fitUnderscore re fe s d).1.cutoffs g = s.cutoffs g := by
  unfold fitUnderscore
  cases hsel : selectModuleName s with
  | error e => exact ⟨rfl, rfl⟩
  | ok mn =>
    dsimp only
    cases hres : resolveModelClass re mn with
    | error e => exact ⟨rfl, rfl⟩
    | ok cls =>
      dsimp only
      exact fitLoop_frame fe cls _ d.ncols _ s g hg

/-- C5 (witness): the amended statement at a concrete input: group `zzz`
does not occur in the one-group dataset, and its (empty) registry entries
are untouched by the fit. -/
theorem claim_C5_witness :
    (fitUnderscore exResolveEnv exFitEnvFail exState0 exData1).1.models
      "zzz" = exState0.models "zzz" ∧
    (fitUnderscore exResolveEnv exFitEnvFail exState0 exData1).1.cutoffs
      "zzz" = exState0.cutoffs "zzz" :=
  claim_C5_amended exResolveEnv exFitEnvFail exState0 exData1 "zzz"
    (by decide)

/-- C3 (counterexample): with a two-group dataset where every external fit
call raises, the configured fit and the default retry for group `a` both
raise; the second exception propagates, the whole fit pass aborts
(contradicting "the engine's overall fit does not abort because of that one
failing group"), and group `b` is never even registered. -/
theorem claim_C3_counterexample :
    (fitUnderscore exResolveEnv exFitEnvFail exState3 exData3).2.isSome =
      true ∧
    ((fitUnderscore exResolveEnv exFitEnvFail exState3 exData3).1.models
      "b").isSome = false ∧
    ((fitUnderscore exResolveEnv exFitEnvFail exState3 exData3).1.models
      "a").isSome = true :=
  ⟨by decide, by decide, by decide⟩

/-- C3 (amended): if fitting a group with the configured options raises,
the fit is retried exactly once with the family's default-constructed
configuration; if the retry succeeds the group's registry entry is the
fitted default-constructed model, but if the retry also raises, the group is
left with an unfitted default-constructed entry and the exception
propagates: the per-group loop aborts and later groups of this pass are not
processed. -/
theorem claim_C3_amended (fe : FitEnv) (s : SkState) (cls : String)
    (df : List Row) (nc : ℕ) (g : String) (grows : List Row)
    (hbig : s.window < grows.length * nc) :
    (∀ fa : FittedAttrs,
      fe.fitOutcome cls false g (prepSeries s (effectiveSp s g) grows) =
        none →
      fe.fitOutcome cls true g (prepSeries s (effectiveSp s g) grows) =
        some fa →
      (fitGroupStep fe s cls df nc g grows).2 = none ∧
      (fitGroupStep fe s cls df nc g grows).1.models g =
        some (mkFitted cls false true fa
          (prepSeries s (effectiveSp s g) grows).length)) ∧
    (fe.fitOutcome cls false g (prepSeries s (effectiveSp s g) grows) =
        none →
      fe.fitOutcome cls true g (prepSeries s (effectiveSp s g) grows) =
        none →
      (fitGroupStep fe s cls df nc g grows).2 = some "fit raised twice" ∧
      (fitGroupStep fe s cls df nc g grows).1.models g =
        some (mkUnfit cls false true)) ∧
    (∀ (rest : List (String × List Row)) (s1 : SkState) (e : String),
      fitGroupStep fe s cls df nc g grows = (s1, some e) →
      fitLoop fe cls df nc s ((g, grows) :: rest) = (s1, some e)) := by
  refine ⟨?_, ?_, ?_⟩
  · intro fa h1 h2
    simp only [fitGroupStep, if_pos hbig]
    rw [h1, h2]
    simp [updF]
  · intro h1 h2
    simp only [fitGroupStep, if_pos hbig]
    rw [h1, h2]
    simp [updF]
  · intro rest s1 e h
    simp only [fitLoop, h]

/-- C3 (witness): the amended statement at a concrete input where both fit
attempts for group `a` raise: the step reports the propagated exception,
leaves the unfitted default-constructed entry, and the loop over the blocks
of groups `a` and `b` aborts with that exception. -/
theorem claim_C3_witness :
    (fitGroupStep exFitEnvFail exState3 "STLForecaster" [exRowA, exRowB] 1
      "a" [exRowA]).2 = some "fit raised twice" ∧
    (fitGroupStep exFitEnvFail exState3 "STLForecaster" [exRowA, exRowB] 1
      "a" [exRowA]).1.models "a" =
        some (mkUnfit "STLForecaster" false true) ∧
    fitLoop exFitEnvFail "STLForecaster" [exRowA, exRowB] 1 exState3
        [("a", [exRowA]), ("b", [exRowB])] =
      ((fitGroupStep exFitEnvFail exState3 "STLForecaster" [exRowA, exRowB]
          1 "a" [exRowA]).1, some "fit raised twice") := by
  have hmain := claim_C3_amended exFitEnvFail exState3 "STLForecaster"
    [exRowA, exRowB] 1 "a" [exRowA] (by decide)
  have hdbl := hmain.2.1 rfl rfl
  refine ⟨hdbl.1, hdbl.2, hmain.2.2 [("b", [exRowB])] _ _ ?_⟩
  rw [← hdbl.1]

theorem writeAll_get_of_nodup (ydf : Ydf) (ps : List (ℕ × List PyFloat))
    (hnd : (ps.map Prod.fst).Nodup) (k : ℕ) (pr : ℕ × List PyFloat)
    (hk : ps[k]? = some pr) (hr : pr.1 < ydf.length) :
    (writeAll ydf ps)[pr.1]? = some (some pr.2) := by
  induction ps generalizing ydf k with
  | nil => simp at hk
  | cons p ps ih =>
    rw [writeAll_cons]
    rw [List.map_cons, List.nodup_cons] at hnd
    cases k with
    | zero =>
      rw [List.getElem?_cons_zero] at hk
      obtain rfl : p = pr := Option.some.inj hk
      rw [writeAll_not_mem _ _ _ hnd.1]
      exact List.getElem?_set_eq_of_lt _ hr
    | succ k =>
      rw [List.getElem?_cons_succ] at hk
      exact ih (ydf.set p.1 (some p.2)) hnd.2 k hk
        (by rw [List.length_set]; exact hr)

theorem dropLast_get? (l : List PyFloat) (m : ℕ) (h : m < l.length - 1) :
    l.dropLast[m]? = l[m]? := by
  have h1 : m < l.dropLast.length := by
    rw [List.length_dropLast]; exact h
  have h2 : m < l.length := by omega
  rw [List.getElem?_eq_getElem h1, List.getElem?_eq_getElem h2]
  exact congrArg some (List.getElem_dropLast l m h1)

/-- C6: for every batch of rows routed to the naive fallback forecaster,
the row at batch position `m + 1` receives a horizon-length array every
entry of which is the batch's row-`m` true target value, and the first row
of the batch receives a horizon-length array of zeros. -/
theorem claim_C6_fallback (H : ℕ) (ydf : Ydf) (data : List PyFloat)
    (idxs : List ℕ) (hnd : idxs.Nodup) (hlen : idxs.length = data.length)
    (hrange : ∀ j ∈ idxs, j < ydf.length) :
    ∀ k j, idxs[k]? = some j →
      ((k = 0 →
        (callDefault H ydf data idxs)[j]? =
          some (some (List.replicate H (some (0 : ℚ))))) ∧
       (∀ m, k = m + 1 →
        ∃ v, data[m]? = some v ∧
          (callDefault H ydf data idxs)[j]? =
            some (some (List.replicate H v)))) := by
  intro k j hkj
  obtain ⟨hk, hjeq⟩ := List.getElem?_eq_some.mp hkj
  have hdpos : 0 < data.length := by omega
  have hserlen :
      ((some 0 : PyFloat) :: data.dropLast).length = data.length := by
    rw [List.length_cons, List.length_dropLast]; omega
  have hjr : j < ydf.length := hrange j (hjeq ▸ List.getElem_mem hk)
  have hnd2 : ((idxs.zip (((some 0 : PyFloat) :: data.dropLast).map
      (fun v => List.replicate H v))).map Prod.fst).Nodup := by
    rw [List.map_fst_zip _ _ (by rw [List.length_map, hserlen]; omega)]
    exact hnd
  have hcd : callDefault H ydf data idxs =
      writeAll ydf (idxs.zip (((some 0 : PyFloat) :: data.dropLast).map
        (fun v => List.replicate H v))) := rfl
  constructor
  · intro h0
    subst h0
    have hpk : (((some 0 : PyFloat) :: data.dropLast).map
        (fun v => List.replicate H v))[0]? =
          some (List.replicate H (some (0 : ℚ))) := by
      rw [List.getElem?_map, List.getElem?_cons_zero]
      rfl
    have hzk : (idxs.zip (((some 0 : PyFloat) :: data.dropLast).map
        (fun v => List.replicate H v)))[0]? =
          some (j, List.replicate H (some (0 : ℚ))) := by
      rw [List.getElem?_zip_eq_some]
      exact ⟨hkj, hpk⟩
    rw [hcd]
    exact writeAll_get_of_nodup ydf _ hnd2 0 _ hzk hjr
  · intro m hm
    subst hm
    have hmlt : m < data.length := by omega
    obtain ⟨v, hv⟩ : ∃ v, data[m]? = some v :=
      ⟨data[m], List.getElem?_eq_getElem hmlt⟩
    refine ⟨v, hv, ?_⟩
    have hpk : (((some 0 : PyFloat) :: data.dropLast).map
        (fun v => List.replicate H v))[m + 1]? =
          some (List.replicate H v) := by
      rw [List.getElem?_map, List.getElem?_cons_succ,
        dropLast_get? data m (by omega), hv]
      rfl
    have hzk : (idxs.zip (((some 0 : PyFloat) :: data.dropLast).map
        (fun v => List.replicate H v)))[m + 1]? =
          some (j, List.replicate H v) := by
      rw [List.getElem?_zip_eq_some]
      exact ⟨hkj, hpk⟩
    rw [hcd]
    exact writeAll_get_of_nodup ydf _ hnd2 (m + 1) _ hzk hjr

/-- C6 (witness): the fallback statement at a concrete input: a two-row
batch with targets 5 and 7 written at frame positions 0 and 1; the first
row's array is `[0, 0]` and the second row's array repeats the first row's
target 5. -/
theorem claim_C6_witness :
    (callDefault 2 [none, none] [some 5, some 7] [0, 1])[0]? =
      some (some (List.replicate 2 (some (0 : ℚ)))) ∧
    ∃ v, ([some 5, some 7] : List PyFloat)[0]? = some v ∧
      (callDefault 2 [none, none] [some 5, some 7] [0, 1])[1]? =
        some (some (List.replicate 2 v)) :=
  ⟨(claim_C6_fallback 2 [none, none] [some 5, some 7] [0, 1] (by decide)
      (by decide) (by decide) 0 0 (by decide)).1 rfl,
   (claim_C6_fallback 2 [none, none] [some 5, some 7] [0, 1] (by decide)
      (by decide) (by decide) 1 1 (by decide)).2 0 rfl⟩

theorem insertOrd_mem {α : Type} (le : α → α → Bool) (x : α) (l : List α)
    (a : α) : a ∈ insertOrd le x l ↔ a = x ∨ a ∈ l := by
  induction l with
  | nil => simp [insertOrd]
  | cons y ys ih =>
    unfold insertOrd
    by_cases h : le x y
    · simp [h]
    · simp only [h, if_false, Bool.false_eq_true, List.mem_cons, ih]
      tauto

theorem sortWith_mem {α : Type} (le : α → α → Bool) (l : List α) (a : α) :
    a ∈ sortWith le l ↔ a ∈ l := by
  induction l with
  | nil => simp [sortWith]
  | cons x xs ih =>
    show a ∈ insertOrd le x (sortWith le xs) ↔ _
    rw [insertOrd_mem]
    simp [ih]

theorem mem_enumFrom_of_get {α : Type} :
    ∀ (l : List α) (n i : ℕ) (x : α), l[i]? = some x →
      (n + i, x) ∈ l.enumFrom n := by
  intro l
  induction l with
  | nil => intro n i x h; simp at h
  | cons a as ih =>
    intro n i x h
    cases i with
    | zero =>
      rw [List.getElem?_cons_zero] at h
      obtain rfl := Option.some.inj h
      exact List.mem_cons_self _ _
    | succ i =>
      rw [List.getElem?_cons_succ] at h
      have h2 := ih (n + 1) i x h
      have heq : n + (i + 1) = (n + 1) + i := by omega
      rw [heq]
      exact List.mem_cons_of_mem _ h2

theorem mem_enum_of_get {α : Type} (l : List α) (i : ℕ) (x : α)
    (h : l[i]? = some x) : (i, x) ∈ l.enum := by
  have h2 := mem_enumFrom_of_get l 0 i x h
  simpa [List.enum] using h2

theorem enumFrom_fst_lt {α : Type} :
    ∀ (l : List α) (n : ℕ) (p : ℕ × α), p ∈ l.enumFrom n →
      p.1 < n + l.length := by
  intro l
  induction l with
  | nil => intro n p h; simp at h
  | cons a as ih =>
    intro n p h
    have h2 : p ∈ (n, a) :: as.enumFrom (n + 1) := h
    rcases List.mem_cons.mp h2 with heq | hmem
    · subst heq; simp
    · have := ih (n + 1) p hmem
      simp only [List.length_cons]
      omega

theorem enum_fst_lt {α : Type} (l : List α) (p : ℕ × α) (h : p ∈ l.enum) :
    p.1 < l.length := by
  have h2 := enumFrom_fst_lt l 0 p h
  simpa using h2

theorem writeAll_good (H : ℕ) (ydf : Ydf) (ps : List (ℕ × List PyFloat))
    (i : ℕ) (hi : i < ydf.length) (hlen : ∀ p ∈ ps, p.2.length = H)
    (hini : GoodAt H ydf i ∨ i ∈ ps.map Prod.fst) :
    GoodAt H (writeAll ydf ps) i := by
  induction ps generalizing ydf with
  | nil =>
    rcases hini with hg | hm
    · exact hg
    · simp at hm
  | cons p ps ih =>
    rw [writeAll_cons]
    have hgood_set : i = p.1 → GoodAt H (ydf.set p.1 (some p.2)) i := by
      intro hip
      subst hip
      exact ⟨p.2, List.getElem?_set_eq_of_lt _ hi,
        hlen p (List.mem_cons_self p ps)⟩
    apply ih (ydf.set p.1 (some p.2)) (by rw [List.length_set]; exact hi)
      (fun q hq => hlen q (List.mem_cons_of_mem p hq))
    rcases hini with hg | hm
    · left
      by_cases hip : i = p.1
      · exact hgood_set hip
      · obtain ⟨l, hl, hL⟩ := hg
        exact ⟨l, by
          rw [List.getElem?_set_ne (fun hh => hip hh.symm)]; exact hl, hL⟩
    · rw [List.map_cons, List.mem_cons] at hm
      rcases hm with hip | hm2
      · exact Or.inl (hgood_set hip)
      · exact Or.inr hm2

theorem gmPreds_length (H : ℕ) (f : Forecaster) (n : ℕ) (start : Int)
    (hm : minOffsetOf f ≤ start) (hn : 0 < n + H) :
    (gmPreds H f n start).length = n + H := by
  have h1 : ((start + (n : Int) + (H : Int)) - start).toNat = n + H := by
    omega
  simp only [gmPreds]
  split
  · simp only [pyTakeLast, h1, List.length_map, List.length_range]
    rw [if_neg (by omega)]
    rw [List.length_drop, List.length_map, List.length_range]
    omega
  · rw [List.length_map, List.length_range, h1]

theorem callGroupmodelAux_good (H : ℕ) (ydf : Ydf) (f : Forecaster)
    (series : List (ℕ × PyFloat)) (start : Int) (i : ℕ)
    (hm : minOffsetOf f ≤ start) (hne : series ≠ []) (hi : i < ydf.length)
    (hini : GoodAt H ydf i ∨ i ∈ series.map Prod.fst) :
    GoodAt H (callGroupmodelAux H ydf f series start) i := by
  have hsp : 0 < series.length := List.length_pos.mpr hne
  have hplen := gmPreds_length H f series.length start hm (by omega)
  simp only [callGroupmodelAux]
  apply writeAll_good
  · exact hi
  · intro p hp
    rw [List.mem_map] at hp
    obtain ⟨q, hq, rfl⟩ := hp
    have hqlt : q.1 < series.length := enum_fst_lt series q hq
    simp only [List.length_take, List.length_drop, hplen]
    rw [Nat.zero_max]
    omega
  · rcases hini with hg | hmem
    · exact Or.inl hg
    · right
      have hfst : (series.enum.map (fun q =>
          (q.2.1, ((gmPreds H f series.length start).drop
            (max 0 q.1)).take H))).map Prod.fst = series.map Prod.fst := by
        rw [List.map_map]
        conv_rhs => rw [← List.enum_map_snd series]
        rw [List.map_map]
        rfl
      rw [hfst]
      exact hmem

theorem callDefault_good (H : ℕ) (ydf : Ydf) (data : List PyFloat)
    (idxs : List ℕ) (i : ℕ) (hi : i < ydf.length)
    (hlen : idxs.length = data.length) (hdne : data ≠ [])
    (hini : GoodAt H ydf i ∨ i ∈ idxs) :
    GoodAt H (callDefault H ydf data idxs) i := by
  have hserlen :
      ((some 0 : PyFloat) :: data.dropLast).length = data.length := by
    rw [List.length_cons, List.length_dropLast]
    have := List.length_pos.mpr hdne
    omega
  simp only [callDefault]
  apply writeAll_good
  · exact hi
  · intro p hp
    have hz := (List.of_mem_zip hp).2
    rw [List.mem_map] at hz
    obtain ⟨v, hv, hpv⟩ := hz
    rw [← hpv, List.length_replicate]
  · rcases hini with hg | hm
    · exact Or.inl hg
    · right
      rw [List.map_fst_zip _ _ (by rw [List.length_map, hserlen]; omega)]
      exact hm

theorem callBlock_length (s : SkState) (ydf : Ydf) (g : String)
    (items : List (ℕ × Row)) :
    (callBlock s ydf g items).length = ydf.length := by
  cases items with
  | nil => rfl
  | cons it its =>
    simp only [callBlock]
    cases s.models g with
    | none => simp only [callDefault]; exact writeAll_length _ _
    | some f =>
      dsimp only
      cases hb : f.isFitted
      · rw [if_neg (by simp [hb])]
        simp only [callDefault]
        exact writeAll_length _ _
      · rw [if_pos (by simp [hb])]
        simp only [callGroupmodel, callGroupmodelAux]
        exact writeAll_length _ _

theorem callBlock_good (s : SkState) (ydf : Ydf) (g : String)
    (items : List (ℕ × Row)) (i : ℕ) (hi : i < ydf.length)
    (hini : GoodAt s.horizon ydf i ∨ i ∈ items.map Prod.fst) :
    GoodAt s.horizon (callBlock s ydf g items) i := by
  cases items with
  | nil =>
    rcases hini with hg | hm
    · exact hg
    · simp at hm
  | cons it its =>
    have hfst2 : ((it :: its).map (fun p => (p.1, p.2.target))).map
        Prod.fst = (it :: its).map Prod.fst := by
      rw [List.map_map]; rfl
    have hdef : GoodAt s.horizon (callDefault s.horizon ydf
        ((it :: its).map (fun p => p.2.target))
        ((it :: its).map (fun p => p.1))) i := by
      apply callDefault_good _ _ _ _ _ hi
        (by rw [List.length_map, List.length_map]) (by simp)
      rcases hini with hg | hm
      · exact Or.inl hg
      · exact Or.inr hm
    simp only [callBlock]
    cases s.models g with
    | none => exact hdef
    | some f =>
      dsimp only
      cases hb : f.isFitted
      · rw [if_neg (by simp [hb])]
        exact hdef
      · rw [if_pos (by simp [hb])]
        simp only [callGroupmodel]
        apply callGroupmodelAux_good _ _ _ _ _ _ (le_max_right _ _)
          (by simp) hi
        rcases hini with hg | hm
        · exact Or.inl hg
        · right
          rw [hfst2]
          exact hm

theorem blocksFold_length (s : SkState)
    (blocks : List (String × List (ℕ × Row))) (ydf : Ydf) :
    (blocks.foldl (fun y b => callBlock s y b.1 b.2) ydf).length =
      ydf.length := by
  induction blocks generalizing ydf with
  | nil => rfl
  | cons b rest ih =>
    rw [List.foldl_cons, ih, callBlock_length]

theorem blocksFold_good (s : SkState)
    (blocks : List (String × List (ℕ × Row))) (ydf : Ydf) (i : ℕ)
    (hi : i < ydf.length)
    (hini : GoodAt s.horizon ydf i ∨
      ∃ b ∈ blocks, i ∈ b.2.map Prod.fst) :
    GoodAt s.horizon
      (blocks.foldl (fun y b => callBlock s y b.1 b.2) ydf) i := by
  induction blocks generalizing ydf with
  | nil =>
    rcases hini with hg | ⟨b, hb, _⟩
    · exact hg
    · simp at hb
  | cons b rest ih =>
    rw [List.foldl_cons]
    apply ih (callBlock s ydf b.1 b.2) (by rw [callBlock_length]; exact hi)
    rcases hini with hg | ⟨b2, hb2, hm⟩
    · exact Or.inl (callBlock_good s ydf b.1 b.2 i hi (Or.inl hg))
    · rcases List.mem_cons.mp hb2 with heq | h2
      · subst heq
        exact Or.inl (callBlock_good s ydf b2.1 b2.2 i hi (Or.inr hm))
      · exact Or.inr ⟨b2, h2, hm⟩

theorem groupKeysOf_mem (rows : List Row) (g : String) :
    g ∈ groupKeysOf rows ↔ ∃ r ∈ rows, r.group = some g := by
  unfold groupKeysOf
  rw [sortWith_mem, List.mem_dedup, List.mem_filterMap]

/-- C1 (counterexample): an inference frame mixing the fitted group `a`
with two rows whose group key is NaN: both rows are pending after the group
loop, `squeeze()` yields a pandas Series, and `_call_default` then calls
`data.flatten()`, which a Series does not have — `__call__` raises
`AttributeError` and returns no prediction frame, so every row is dropped,
contradicting the claim at this input. -/
theorem claim_C1_counterexample :
    2 ≤ (pendingItems exState8.gby exRowsNaN2).length ∧
    callMixer exState8 exRowsNaN2 = .error flattenError :=
  ⟨by decide, rfl⟩

/-- C1 (amended): for every engine state and every inference frame mixing
seen and unseen groups, provided at most one input row has a missing (NaN)
group key, `__call__` returns exactly one prediction per input row, in the
original positional order (cell `i` of the output frame belongs to input
row `i`), with every prediction a list of exactly the declared horizon
length — no row is dropped.  With two or more missing-key rows the pending
fallback receives a pandas Series, `data.flatten()` raises
`AttributeError`, and no prediction frame is returned at all. -/
theorem claim_C1_predict (s : SkState) (rows : List Row) :
    ((pendingItems s.gby rows).length ≤ 1 →
      ∃ out, callMixer s rows = .ok out ∧ out.length = rows.length ∧
        ∀ i, i < rows.length →
          ∃ l, out[i]? = some (some l) ∧ l.length = s.horizon) ∧
    (2 ≤ (pendingItems s.gby rows).length →
      callMixer s rows = .error flattenError) := by
  constructor
  · intro hle
    by_cases hp : 0 < (pendingItems s.gby rows).length
    · -- exactly one pending row: the scalar squeeze path succeeds
      have h1 : (pendingItems s.gby rows).length = 1 := by omega
      refine ⟨callDefault s.horizon
          ((inferBlocks s.gby rows).foldl (fun y b => callBlock s y b.1 b.2)
            (List.replicate rows.length none))
          ((pendingItems s.gby rows).map (fun p => p.2.target))
          ((pendingItems s.gby rows).map (fun p => p.1)), ?_, ?_, ?_⟩
      · simp only [callMixer]
        rw [if_pos hp, if_pos h1]
      · simp only [callDefault]
        rw [writeAll_length, blocksFold_length, List.length_replicate]
      · intro i hi
        have hrowi : rows[i]? = some (rows[i]) := List.getElem?_eq_getElem hi
        have henum : (i, rows[i]) ∈ rows.enum :=
          mem_enum_of_get rows i _ hrowi
        have hydf0 : i <
            (List.replicate rows.length (none : Cell)).length := by
          rw [List.length_replicate]; exact hi
        show GoodAt s.horizon _ i
        cases hgb : s.gby
        · -- ungrouped: nothing is ever pending, contradicting hp
          exfalso
          rw [hgb] at hp
          simp [pendingItems] at hp
        · rw [hgb] at hp h1
          have hlen1 : i < ((inferBlocks true rows).foldl
              (fun y b => callBlock s y b.1 b.2)
              (List.replicate rows.length (none : Cell))).length := by
            rw [blocksFold_length, List.length_replicate]; exact hi
          have hdne : (pendingItems true rows).map
              (fun p => p.2.target) ≠ [] := by
            intro hnil
            rw [List.map_eq_nil_iff] at hnil
            rw [hnil] at hp
            simp at hp
          cases hg : (rows[i]).group with
          | some g =>
            have hblock :
                (g, rows.enum.filter (fun p => p.2.group = some g)) ∈
                  inferBlocks true rows := by
              simp only [inferBlocks, if_pos]
              exact List.mem_map.mpr ⟨g, (groupKeysOf_mem rows g).mpr
                ⟨rows[i], List.getElem_mem hi, hg⟩, rfl⟩
            have hmemblk : i ∈ (rows.enum.filter
                (fun p => p.2.group = some g)).map Prod.fst := by
              apply List.mem_map.mpr
              refine ⟨(i, rows[i]), List.mem_filter.mpr ⟨henum, ?_⟩, rfl⟩
              simp [hg]
            apply callDefault_good _ _ _ _ _ hlen1
              (by rw [List.length_map, List.length_map]) hdne
            exact Or.inl
              (blocksFold_good s _ _ i hydf0 (Or.inr ⟨_, hblock, hmemblk⟩))
          | none =>
            have hpmem : (i, rows[i]) ∈ pendingItems true rows := by
              simp only [pendingItems, if_pos]
              exact List.mem_filter.mpr ⟨henum, by simp [hg]⟩
            apply callDefault_good _ _ _ _ _ hlen1
              (by rw [List.length_map, List.length_map]) hdne
            right
            exact List.mem_map.mpr ⟨(i, rows[i]), hpmem, rfl⟩
    · -- nothing pending: the group blocks cover every row
      refine ⟨(inferBlocks s.gby rows).foldl
          (fun y b => callBlock s y b.1 b.2)
          (List.replicate rows.length none), ?_, ?_, ?_⟩
      · simp only [callMixer]
        rw [if_neg hp]
      · rw [blocksFold_length, List.length_replicate]
      · intro i hi
        have hrowi : rows[i]? = some (rows[i]) := List.getElem?_eq_getElem hi
        have henum : (i, rows[i]) ∈ rows.enum :=
          mem_enum_of_get rows i _ hrowi
        have hydf0 : i <
            (List.replicate rows.length (none : Cell)).length := by
          rw [List.length_replicate]; exact hi
        show GoodAt s.horizon _ i
        cases hgb : s.gby
        · -- ungrouped: a single __default block covers every row
          simp only [inferBlocks, Bool.false_eq_true, if_false]
          apply blocksFold_good s _ _ i hydf0
          right
          refine ⟨("__default", rows.enum), List.mem_singleton.mpr rfl, ?_⟩
          exact List.mem_map.mpr ⟨(i, rows[i]), henum, rfl⟩
        · cases hg : (rows[i]).group with
          | some g =>
            have hblock :
                (g, rows.enum.filter (fun p => p.2.group = some g)) ∈
                  inferBlocks true rows := by
              simp only [inferBlocks, if_pos]
              exact List.mem_map.mpr ⟨g, (groupKeysOf_mem rows g).mpr
                ⟨rows[i], List.getElem_mem hi, hg⟩, rfl⟩
            have hmemblk : i ∈ (rows.enum.filter
                (fun p => p.2.group = some g)).map Prod.fst := by
              apply List.mem_map.mpr
              refine ⟨(i, rows[i]), List.mem_filter.mpr ⟨henum, ?_⟩, rfl⟩
              simp [hg]
            exact blocksFold_good s _ _ i hydf0
              (Or.inr ⟨_, hblock, hmemblk⟩)
          | none =>
            exfalso
            have hpmem : (i, rows[i]) ∈ pendingItems true rows := by
              simp only [pendingItems, if_pos]
              exact List.mem_filter.mpr ⟨henum, by simp [hg]⟩
            rw [hgb] at hp
            exact hp (List.length_pos.mpr (List.ne_nil_of_mem hpmem))
  · intro h2
    simp only [callMixer]
    rw [if_pos (by omega), if_neg (by omega)]

/-- C1 (witness): the amended statement at a concrete input: a mixed frame
with a row of the fitted group `a`, exactly one NaN-group row and a row of
the unseen group `z`, against the horizon-2 engine state; `__call__`
succeeds and every row gets a length-2 prediction list. -/
theorem claim_C1_witness :
    (pendingItems exState8.gby exRowsMix).length ≤ 1 ∧
    (∃ out, callMixer exState8 exRowsMix = .ok out ∧
      out.length = exRowsMix.length ∧
      ∀ i, i < exRowsMix.length →
        ∃ l, out[i]? = some (some l) ∧ l.length = exState8.horizon) :=
  ⟨by decide, (claim_C1_predict exState8 exRowsMix).1 (by decide)⟩

theorem fitGroupStep_search (fe : FitEnv) (s : SkState) (cls : String)
    (df : List Row) (nc : ℕ) (g : String) (grows : List Row) :
    (fitGroupStep fe s cls df nc g grows).1.hyperparamSearch =
      s.hyperparamSearch := by
  simp only [fitGroupStep]
  split
  · split
    · rfl
    · split <;> rfl
  · rfl

theorem fitGroupStep_nTrials (fe : FitEnv) (s : SkState) (cls : String)
    (df : List Row) (nc : ℕ) (g : String) (grows : List Row) :
    (fitGroupStep fe s cls df nc g grows).1.nTrials = s.nTrials := by
  simp only [fitGroupStep]
  split
  · split
    · rfl
    · split <;> rfl
  · rfl

theorem fitLoop_search (fe : FitEnv) (cls : String) (df : List Row) (nc : ℕ)
    (blocks : List (String × List Row)) :
    ∀ s, (fitLoop fe cls df nc s blocks).1.hyperparamSearch =
      s.hyperparamSearch := by
  induction blocks with
  | nil => intro s; rfl
  | cons b rest ih =>
    intro s
    cases b with
    | mk g grows =>
      simp only [fitLoop]
      cases hfs : fitGroupStep fe s cls df nc g grows with
      | mk s1 err =>
        have h2 := fitGroupStep_search fe s cls df nc g grows
        rw [hfs] at h2
        cases err with
        | some e => exact h2
        | none =>
          dsimp only
          rw [ih s1, h2]

theorem fitLoop_nTrials (fe : FitEnv) (cls : String) (df : List Row)
    (nc : ℕ) (blocks : List (String × List Row)) :
    ∀ s, (fitLoop fe cls df nc s blocks).1.nTrials = s.nTrials := by
  induction blocks with
  | nil => intro s; rfl
  | cons b rest ih =>
    intro s
    cases b with
    | mk g grows =>
      simp only [fitLoop]
      cases hfs : fitGroupStep fe s cls df nc g grows with
      | mk s1 err =>
        have h2 := fitGroupStep_nTrials fe s cls df nc g grows
        rw [hfs] at h2
        cases err with
        | some e => exact h2
        | none =>
          dsimp only
          rw [ih s1, h2]

theorem fitUnderscore_search (re : ResolveEnv) (fe : FitEnv) (s : SkState)
    (d : FitData) :
    (fitUnderscore re fe s d).1.hyperparamSearch = s.hyperparamSearch := by
  unfold fitUnderscore
  cases selectModuleName s with
  | error e => rfl
  | ok mn =>
    dsimp only
    cases resolveModelClass re mn with
    | error e => rfl
    | ok cls => exact fitLoop_search fe cls _ d.ncols _ _

theorem fitUnderscore_nTrials (re : ResolveEnv) (fe : FitEnv) (s : SkState)
    (d : FitData) :
    (fitUnderscore re fe s d).1.nTrials = s.nTrials := by
  unfold fitUnderscore
  cases selectModuleName s with
  | error e => rfl
  | ok mn =>
    dsimp only
    cases resolveModelClass re mn with
    | error e => rfl
    | ok cls => exact fitLoop_nTrials fe cls _ d.ncols _ _

theorem skFit_search_false (re : ResolveEnv) (fe : FitEnv) (s : SkState)
    (a b : FitData) (hs : s.hyperparamSearch = false) :
    (skFit re fe s a b).1.hyperparamSearch = false := by
  unfold skFit
  rw [hs]
  simp only [Bool.false_eq_true, if_false]
  rw [fitUnderscore_search]
  exact hs

theorem partialFit_search (re : ResolveEnv) (fe : FitEnv) (s : SkState)
    (train dev : FitData) :
    (partialFit re fe s train dev).1.hyperparamSearch = false := by
  unfold partialFit
  cases hsf : skFit re fe { s with hyperparamSearch := false } dev train with
  | mk s1 err =>
    have h2 : s1.hyperparamSearch = false := by
      have h3 := skFit_search_false re fe
        { s with hyperparamSearch := false } dev train rfl
      rw [hsf] at h3
      exact h3
    cases err with
    | some e => exact h2
    | none => exact h2

theorem stepOp_search_false (re : ResolveEnv) (fe : FitEnv) (s : SkState)
    (op : SkOp) (hs : s.hyperparamSearch = false) :
    (stepOp re fe s op).hyperparamSearch = false := by
  cases op with
  | doFit a b => exact skFit_search_false re fe s a b hs
  | doPartialFit a b => exact partialFit_search re fe s a b
  | doCall rows => exact hs

theorem runOps_search_false (re : ResolveEnv) (fe : FitEnv)
    (ops : List SkOp) :
    ∀ s : SkState, s.hyperparamSearch = false →
      (runOps re fe s ops).hyperparamSearch = false := by
  induction ops with
  | nil => intro s hs; exact hs
  | cons op ops ih =>
    intro s hs
    exact ih (stepOp re fe s op) (stepOp_search_false re fe s op hs)

/-- C10: once `partial_fit` has run, the hyperparameter-search flag is
false and stays false across every further `fit`, `partial_fit` or
`__call__` on the instance (no operation re-enables it); moreover
`partial_fit` forwards its `dev_data` argument as the training split and
its `train_data` argument as the dev split — with the flag cleared, the
underlying `fit` call reduces to a single `_fit` over the concatenation
`dev ++ train`. -/
theorem claim_C10_partial_fit (re : ResolveEnv) (fe : FitEnv) (s : SkState)
    (train dev : FitData) (ops : List SkOp) :
    (stepOp re fe s (SkOp.doPartialFit train dev)).hyperparamSearch =
      false ∧
    (runOps re fe (stepOp re fe s (SkOp.doPartialFit train dev))
      ops).hyperparamSearch = false ∧
    partialFit re fe s train dev =
      (match fitUnderscore re fe { s with hyperparamSearch := false }
          (concatData dev train) with
       | (s1, some e) => (s1, some e)
       | (s1, none) => ({ s1 with prepared := true }, none)) :=
  ⟨partialFit_search re fe s train dev,
   runOps_search_false re fe ops _ (partialFit_search re fe s train dev),
   rfl⟩

theorem trialObjective_search (re : ResolveEnv) (fe : FitEnv) (s : SkState)
    (c : String) (a b : FitData) :
    (trialObjective re fe s c a b).1.hyperparamSearch =
      s.hyperparamSearch := by
  unfold trialObjective
  cases hfu : fitUnderscore re fe { s with hyperparamDict := some c } a with
  | mk s1 err =>
    have h1 := fitUnderscore_search re fe
      { s with hyperparamDict := some c } a
    rw [hfu] at h1
    cases err with
    | some e => exact h1
    | none =>
      dsimp only
      cases callMixer s1 b.rows with
      | error e => exact h1
      | ok out =>
        cases out with
        | nil => exact h1
        | cons c1 rest => exact h1

theorem trialObjective_nTrials (re : ResolveEnv) (fe : FitEnv) (s : SkState)
    (c : String) (a b : FitData) :
    (trialObjective re fe s c a b).1.nTrials = s.nTrials := by
  unfold trialObjective
  cases hfu : fitUnderscore re fe { s with hyperparamDict := some c } a with
  | mk s1 err =>
    have h1 := fitUnderscore_nTrials re fe
      { s with hyperparamDict := some c } a
    rw [hfu] at h1
    cases err with
    | some e => exact h1
    | none =>
      dsimp only
      cases callMixer s1 b.rows with
      | error e => exact h1
      | ok out =>
        cases out with
        | nil => exact h1
        | cons c1 rest => exact h1

theorem runTrials_nTrials (re : ResolveEnv) (fe : FitEnv) (a b : FitData) :
    ∀ (cs : List String) (s : SkState)
      (acc : List (String × Option ℚ)),
      (runTrials re fe a b s acc cs).1.nTrials = s.nTrials := by
  intro cs
  induction cs with
  | nil => intro s acc; rfl
  | cons c cs ih =>
    intro s acc
    simp only [runTrials]
    cases hto : trialObjective re fe { s with study := some ⟨acc⟩ } c a b
      with
    | mk s1 res =>
      have h := trialObjective_nTrials re fe
        { s with study := some ⟨acc⟩ } c a b
      rw [hto] at h
      exact (ih s1 (acc ++ [(c, res)])).trans h

theorem runTrials_fst (re : ResolveEnv) (fe : FitEnv) (a b : FitData) :
    ∀ (cs : List String) (s : SkState)
      (acc : List (String × Option ℚ)),
      ((runTrials re fe a b s acc cs).2).map Prod.fst =
        acc.map Prod.fst ++ cs := by
  intro cs
  induction cs with
  | nil => intro s acc; simp [runTrials]
  | cons c cs ih =>
    intro s acc
    simp only [runTrials]
    cases hto : trialObjective re fe { s with study := some ⟨acc⟩ } c a b
      with
    | mk s1 res =>
      rw [ih s1 (acc ++ [(c, res)])]
      simp

theorem errLt_irrefl (a : Option ℚ) : errLt a a = false := by
  cases a with
  | none => rfl
  | some x => simp [errLt]

theorem errLt_trans (a b c : Option ℚ) (h1 : errLt a b = true)
    (h2 : errLt b c = true) : errLt a c = true := by
  cases a with
  | none => simp [errLt] at h1
  | some x =>
    cases c with
    | none =>
      cases b with
      | none => simp [errLt] at h2
      | some y => simp [errLt]
    | some z =>
      cases b with
      | none => simp [errLt] at h2
      | some y =>
        simp only [errLt, decide_eq_true_eq] at h1 h2 ⊢
        exact lt_trans h1 h2

theorem errLt_le_lt (a b c : Option ℚ) (h1 : errLt a b = false)
    (h2 : errLt a c = true) : errLt b c = true := by
  cases a with
  | none => simp [errLt] at h2
  | some x =>
    cases b with
    | none => simp [errLt] at h1
    | some y =>
      cases c with
      | none => simp [errLt]
      | some z =>
        simp only [errLt, decide_eq_true_eq, decide_eq_false_iff_not]
          at h1 h2 ⊢
        exact lt_of_le_of_lt (le_of_not_lt h1) h2

theorem foldBest_mem :
    ∀ (rest : List (String × Option ℚ)) (t : String × Option ℚ),
      rest.foldl (fun acc u => if errLt u.2 acc.2 then u else acc) t ∈
        t :: rest := by
  intro rest
  induction rest with
  | nil => intro t; exact List.mem_singleton.mpr rfl
  | cons u rest ih =>
    intro t
    rw [List.foldl_cons]
    by_cases h : errLt u.2 t.2
    · rw [if_pos h]
      exact List.mem_cons_of_mem t (ih u)
    · rw [if_neg h]
      rcases List.mem_cons.mp (ih t) with h2 | h2
      · rw [h2]; exact List.mem_cons_self _ _
      · exact List.mem_cons_of_mem _ (List.mem_cons_of_mem _ h2)

theorem foldBest_min :
    ∀ (rest : List (String × Option ℚ)) (t : String × Option ℚ)
      (x : String × Option ℚ), x ∈ t :: rest →
      errLt x.2 (rest.foldl
        (fun acc u => if errLt u.2 acc.2 then u else acc) t).2 = false := by
  intro rest
  induction rest with
  | nil =>
    intro t x hx
    rcases List.mem_cons.mp hx with h | h
    · subst h; exact errLt_irrefl _
    · simp at h
  | cons u rest ih =>
    intro t x hx
    rw [List.foldl_cons]
    by_cases h : errLt u.2 t.2
    · rw [if_pos h]
      rcases List.mem_cons.mp hx with h2 | h2
      · rw [h2]
        have hu := ih u u (List.mem_cons_self _ _)
        by_contra hc
        rw [Bool.not_eq_false] at hc
        have h3 := errLt_trans _ _ _ h hc
        rw [hu] at h3
        simp at h3
      · exact ih u x h2
    · rw [if_neg h]
      rcases List.mem_cons.mp hx with h2 | h2
      · rw [h2]
        exact ih t t (List.mem_cons_self _ _)
      · rcases List.mem_cons.mp h2 with h3 | h3
        · rw [h3]
          have ht := ih t t (List.mem_cons_self _ _)
          have h5 : errLt u.2 t.2 = false := Bool.eq_false_iff.mpr h
          by_contra hc
          rw [Bool.not_eq_false] at hc
          have h4 := errLt_le_lt _ _ _ h5 hc
          rw [ht] at h4
          simp at h4
        · exact ih t x (List.mem_cons_of_mem _ h3)

theorem bestPair_spec (ts : List (String × Option ℚ)) (hne : ts ≠ []) :
    ∃ p, bestPair ts = some p ∧ p ∈ ts ∧
      ∀ t ∈ ts, errLt t.2 p.2 = false := by
  cases ts with
  | nil => exact absurd rfl hne
  | cons t rest =>
    exact ⟨_, rfl, foldBest_mem rest t, fun x hx => foldBest_min rest t x hx⟩

/-- C7: with hyperparameter search enabled over N candidate families, the
study records exactly one trial per candidate, in order (so exactly N
evaluations, and an exception during a trial's fit is recorded as the
infinite-error sentinel for that trial only, the remaining candidates still
being evaluated); the committed family is a candidate of minimum recorded
error; and `fit` then performs one additional full `_fit` over the
concatenated train and dev data, inside which the finished study selects
exactly that winning family. -/
theorem claim_C7_search (re : ResolveEnv) (fe : FitEnv) (s : SkState)
    (train dev : FitData) (hs : s.hyperparamSearch = true)
    (hn : s.nTrials = s.possibleModels.length)
    (hne : s.possibleModels ≠ []) :
    ((searchTrials re fe s train dev).2.map Prod.fst = s.possibleModels) ∧
    (∃ p, bestPair (searchTrials re fe s train dev).2 = some p ∧
      p ∈ (searchTrials re fe s train dev).2 ∧
      (∀ t ∈ (searchTrials re fe s train dev).2, errLt t.2 p.2 = false) ∧
      bestOf (searchTrials re fe s train dev).2 = some p.1 ∧
      p.1 ∈ s.possibleModels) ∧
    (skFit re fe s train dev = fitUnderscore re fe
      { (searchTrials re fe s train dev).1 with
        study := some ⟨(searchTrials re fe s train dev).2⟩ }
      (concatData train dev)) ∧
    (∀ b2, bestOf (searchTrials re fe s train dev).2 = some b2 →
      selectModuleName { (searchTrials re fe s train dev).1 with
        study := some ⟨(searchTrials re fe s train dev).2⟩ } = .ok b2) ∧
    (∀ (s2 : SkState) (c : String),
      (fitUnderscore re fe { s2 with hyperparamDict := some c }
        train).2.isSome = true →
      (trialObjective re fe s2 c train dev).2 = none) := by
  have hfst : (searchTrials re fe s train dev).2.map Prod.fst =
      s.possibleModels := by
    unfold searchTrials
    rw [runTrials_fst re fe train dev s.possibleModels _ []]
    rfl
  have htne : (searchTrials re fe s train dev).2 ≠ [] := by
    intro h0
    rw [h0] at hfst
    exact hne hfst.symm
  have hlen : (searchTrials re fe s train dev).2.length =
      s.possibleModels.length := by
    have h2 := congrArg List.length hfst
    rw [List.length_map] at h2
    exact h2
  have hnt : (searchTrials re fe s train dev).1.nTrials = s.nTrials :=
    runTrials_nTrials re fe train dev s.possibleModels
      { s with study := some ⟨[]⟩ } []
  refine ⟨hfst, ?_, ?_, ?_, ?_⟩
  · obtain ⟨p, hbp, hpm, hmin⟩ := bestPair_spec _ htne
    refine ⟨p, hbp, hpm, hmin, ?_, ?_⟩
    · rw [bestOf, hbp]; rfl
    · rw [← hfst]
      exact List.mem_map_of_mem Prod.fst hpm
  · unfold skFit searchTrials
    rw [hs]
    rfl
  · intro b2 hb2
    unfold selectModuleName
    simp only [Option.isNone_some, Bool.and_false, Bool.false_eq_true,
      if_false]
    rw [if_pos
      (show (searchTrials re fe s train dev).2.length =
          (searchTrials re fe s train dev).1.nTrials by
        rw [hnt, hn]; exact hlen)]
    rw [hb2]
  · intro s2 c hiss
    unfold trialObjective
    cases hfu : fitUnderscore re fe { s2 with hyperparamDict := some c }
        train with
    | mk s1 err =>
      rw [hfu] at hiss
      cases err with
      | some e => rfl
      | none => simp at hiss

/-- C7 (witness): the search statement at a concrete input: one candidate
family, so exactly one recorded trial, and `fit` equals the final full
`_fit` over the concatenation under the finished study. -/
theorem claim_C7_witness :
    ((searchTrials exResolveEnv exFitEnvFail exStateSearch exData1
      exData2).2.map Prod.fst = ["trend.STLForecaster"]) ∧
    (skFit exResolveEnv exFitEnvFail exStateSearch exData1 exData2 =
      fitUnderscore exResolveEnv exFitEnvFail
        { (searchTrials exResolveEnv exFitEnvFail exStateSearch exData1
            exData2).1 with
          study := some ⟨(searchTrials exResolveEnv exFitEnvFail
            exStateSearch exData1 exData2).2⟩ }
        (concatData exData1 exData2)) :=
  ⟨(claim_C7_search exResolveEnv exFitEnvFail exStateSearch exData1 exData2
      rfl (by decide) (by decide)).1,
   (claim_C7_search exResolveEnv exFitEnvFail exStateSearch exData1 exData2
      rfl (by decide) (by decide)).2.2.1⟩

end LightwoodSkTime
